import Mathlib

/-!
# zorkbot: a chat bridge for a Z-machine interpreter

Shallow embedding of `main.go`.  Conventions of the embedding:

* a Go `string` is modelled by its rune sequence (`GoString = List Char`); `len` is the UTF-8 byte
  length, as in Go;
* Go's `error` is `Option GoError` (`none` is `nil`);
* an operation that may block returns an `Option`: `none` means that the call never returns in
  the state it was started in (there is no other party to release it);
* the mutexes only serialise the calls; every call is modelled as one atomic update;
* `make([]rune, 0, n)` is modelled with the limits of the runtime: it panics when the capacity
  is out of range, and the memory it asks for may not be granted.
-/

set_option autoImplicit false

/-- Go strings, as sequences of runes. -/
abbrev GoString := List Char

/-- Go's `len(s)`: the number of bytes of the UTF-8 encoding. -/
def len (s : GoString) : Nat := (s.map Char.utf8Size).sum

/-- The error values the program distinguishes. -/
inductive GoError where
  | EOF
  | ErrQuit
  | ErrRestart
  | other (msg : String)
deriving DecidableEq

/-- Result triple of `ReadRune() (rune, int, error)`. -/
structure RuneRead where
  r : Char
  size : Nat
  err : Option GoError
deriving DecidableEq

/-! ## Channels -/

/-- A buffered channel `chan bool`: its capacity and the values queued in it. -/
structure Chan where
  cap : Nat
  queue : List Bool
deriving DecidableEq

/-- The statement `make(chan bool, n)`. -/
def Chan.make (n : Nat) : Chan := { cap := n, queue := [] }

/-- The statement `c <- v`: enqueues when there is room, blocks otherwise. -/
def Chan.send (c : Chan) (v : Bool) : Option Chan :=
  if c.queue.length < c.cap then some { c with queue := c.queue ++ [v] } else none

/-- The expression `<-c`: dequeues the oldest value, blocks on an empty queue. -/
def Chan.recv (c : Chan) : Option (Bool × Chan) :=
  match c.queue with
  | [] => none
  | v :: q => some (v, { c with queue := q })

/-! ## bytes.Buffer -/

/-- The method `bytes.Buffer.ReadRune`: `io.EOF` on an empty buffer, else the first rune. -/
def bytesBufferReadRune (buf : GoString) : RuneRead × GoString :=
  match buf with
  | [] => ({ r := Char.ofNat 0, size := 0, err := some GoError.EOF }, [])
  | c :: rest => ({ r := c, size := c.utf8Size, err := none }, rest)

/-! ## Input buffer -/

/-- The struct `inputBuffer` (the mutex is implicit in the atomicity of the calls). -/
structure inputBuffer where
  msg : Chan
  buf : GoString
deriving DecidableEq

/-- The constructor `newInputBuffer`. -/
def newInputBuffer : inputBuffer := { msg := Chan.make 1, buf := [] }

/-- The method `inputBuffer.WriteString`: append, then `b.msg <- true` while holding the lock. -/
def inputBuffer.WriteString (b : inputBuffer) (s : GoString) : Option inputBuffer :=
  let b1 := { b with buf := b.buf ++ s }
  (b1.msg.send true).map fun m => { b1 with msg := m }

/-- The method `inputBuffer.ReadRune`: wait on `msg` when the buffer was empty, then read. -/
def inputBuffer.ReadRune (b : inputBuffer) : Option (RuneRead × inputBuffer) :=
  let length := len b.buf
  let waited : Option inputBuffer :=
    if length = 0 then (b.msg.recv).map fun p => { b with msg := p.2 } else some b
  waited.map fun b1 =>
    let res := bytesBufferReadRune b1.buf
    (res.1, { b1 with buf := res.2 })

/-! ## Output buffer -/

/-- The struct `outputBuffer` (the mutex is implicit in the atomicity of the calls). -/
structure outputBuffer where
  buf : GoString
deriving DecidableEq

/-- The method `outputBuffer.WriteString`. -/
def outputBuffer.WriteString (b : outputBuffer) (s : GoString) : outputBuffer :=
  { b with buf := b.buf ++ s }

/-- A call `sender.ChannelMessageSend(channel, s)`. -/
structure Send where
  channel : String
  s : GoString
deriving DecidableEq

/-- One iteration of the loop of `outputBuffer.coalesceAndSend`, run at every tick: the calls of
`ChannelMessageSend` it makes and the buffer it leaves. -/
def outputBuffer.coalesceAndSend (channelId : String) (b : outputBuffer) :
    List Send × outputBuffer :=
  let line := b.buf
  let b1 : outputBuffer := { b with buf := [] }
  if line = [] then ([], b1) else ([{ channel := channelId, s := line }], b1)

/-- What happens to an output buffer: the session writes to it, or the ticker fires. -/
inductive OutEvent where
  | write (s : GoString)
  | tick
deriving DecidableEq

/-- Effect of one event on the output buffer, sends dropped. -/
def outputBuffer.apply (channelId : String) (b : outputBuffer) : OutEvent → outputBuffer
  | OutEvent.write s => b.WriteString s
  | OutEvent.tick => (b.coalesceAndSend channelId).2

/-- The output buffer after a sequence of events. -/
def outputBuffer.run (channelId : String) (es : List OutEvent) (b : outputBuffer) : outputBuffer :=
  es.foldl (outputBuffer.apply channelId) b

/-- The constructor `newOutputBuffer` (the flush loop is driven by the `tick` events). -/
def newOutputBuffer : outputBuffer := { buf := [] }

/-- The texts written after the last tick of `es`, concatenated in write order. -/
def writtenSinceLastTick (es : List OutEvent) : GoString :=
  (((es.reverse.takeWhile fun e => decide (e ≠ OutEvent.tick)).reverse.map fun e =>
    match e with
    | OutEvent.write s => s
    | OutEvent.tick => []).flatten)

/-! ## Session adapter -/

/-- The struct `discordUI`; its field `in` is an `io.RuneReader` with state `σ`. -/
structure discordUI (σ : Type) where
  inp : σ
  out : outputBuffer

/-- The constant `maxAlloc` of the Go runtime, the largest size in bytes of one allocation, on
64-bit platforms with 48 heap address bits (linux/amd64). -/
def maxAlloc : Nat := 2 ^ 48

/-- What a call of `Input` does: it returns; or `make` panics (`makeslice: cap out of range`); or
the runtime stops on `out of memory` because the allocation was not granted. -/
inductive InputResult where
  | returned (r : List Char) (err : Option GoError)
  | panicked
  | outOfMemory
deriving DecidableEq

/-- The `for` loop of `discordUI.Input`; `fuel` bounds the number of iterations. -/
def inputLoop {σ : Type} (rd : σ → Option (RuneRead × σ)) (n : Int) :
    Nat → List Char → σ → Option (InputResult × σ)
  | 0, _, _ => none
  | fuel + 1, r, s =>
    match rd s with
    | none => none
    | some (res, s1) =>
      if res.err ≠ none then some (InputResult.returned r res.err, s1)
      else if res.r = '\n' then some (InputResult.returned r none, s1)
      else inputLoop rd n fuel (if (r.length : Int) < n then r ++ [res.r] else r) s1

/-- The method `discordUI.Input`, reading through `rd`, the `ReadRune` of the field `in`.
`make([]rune, 0, n)` comes first: a rune takes 4 bytes, `makeslice` panics when `n` is negative
or `4 * n` exceeds `maxAlloc`, and `grant m` tells whether the runtime obtains `m > 0` bytes.
The loop never appends beyond the capacity `n`, so nothing else is allocated. -/
def discordUI.Input {σ : Type} (grant : Nat → Bool) (rd : σ → Option (RuneRead × σ))
    (t : discordUI σ) (n : Int) (fuel : Nat) : Option (InputResult × discordUI σ) :=
  if n < 0 ∨ 4 * n > (maxAlloc : Int) then some (InputResult.panicked, t)
  else if 0 < n ∧ grant (4 * n.toNat) = false then some (InputResult.outOfMemory, t)
  else (inputLoop rd n fuel [] t.inp).map fun p => (p.1, { t with inp := p.2 })

/-- The method `discordUI.Output`. -/
def discordUI.Output {σ : Type} (t : discordUI σ) (window : Int) (s : GoString) :
    Option GoError × discordUI σ :=
  if window ≠ 0 then (none, t)
  else (none, { t with out := t.out.WriteString s })

/-- Reading from state `s` yields the runes `cs`, without error, and leads to state `s1`. -/
def Unread {σ : Type} (rd : σ → Option (RuneRead × σ)) : List Char → σ → σ → Prop
  | [], s, s1 => s1 = s
  | c :: cs, s, s1 =>
    ∃ sz s2, rd s = some ({ r := c, size := sz, err := none }, s2) ∧ Unread rd cs s2 s1

/-! ## Package strings -/

/-- The function `unicode.IsSpace`. -/
def IsSpace (c : Char) : Bool :=
  let v := c.toNat
  (9 ≤ v && v ≤ 13) || v = 32 || v = 133 || v = 160 || v = 5760 || (8192 ≤ v && v ≤ 8202)
    || v = 8232 || v = 8233 || v = 8239 || v = 8287 || v = 12288

/-- The function `strings.TrimSpace`. -/
def TrimSpace (s : GoString) : GoString :=
  ((s.dropWhile IsSpace).reverse.dropWhile IsSpace).reverse

/-- The function `strings.HasPrefix`. -/
def HasPrefix (s pre : GoString) : Bool := pre.isPrefixOf s

/-- The function `strings.Index`: position of the leftmost occurrence of `substr`. -/
def Index : GoString → GoString → Option Nat
  | [], substr => if substr = [] then some 0 else none
  | c :: cs, substr =>
    if substr.isPrefixOf (c :: cs) then some 0 else (Index cs substr).map (· + 1)

/-- The loop of `strings.Count`, for a non-empty `substr`. -/
def countLoop (substr : GoString) : Nat → GoString → Nat
  | 0, _ => 0
  | fuel + 1, s =>
    match Index s substr with
    | none => 0
    | some i => 1 + countLoop substr fuel (s.drop (i + substr.length))

/-- The function `strings.Count`: number of non-overlapping occurrences of `substr`. -/
def Count (s substr : GoString) : Nat :=
  if substr = [] then s.length + 1 else countLoop substr s.length s

/-- The loop of `strings.genSplit`, run `n - 1` times at most, then the rest as last piece. -/
def splitLoop (sep : GoString) : Nat → GoString → List GoString
  | 0, s => [s]
  | k + 1, s =>
    match Index s sep with
    | none => [s]
    | some m => s.take m :: splitLoop sep k (s.drop (m + sep.length))

/-- The function `strings.Split`: with `n = Count(s, sep) + 1` pieces; runes when `sep` is empty. -/
def Split (s sep : GoString) : List GoString :=
  if sep = [] then s.map fun c => [c] else splitLoop sep (Count s sep) s

/-! ## Event router -/

/-- What the message handler does with the input buffer. -/
inductive HandlerResult where
  | ignored
  | wrote (s : GoString)
  | panicked
deriving DecidableEq

/-- The callback given to `discord.AddHandler`: `selfId` is `s.State.User.ID`, `wrote x` is the
call `buf.WriteString(x)`, `panicked` an index out of range. -/
def handler (selfId channelId authorId msgChannelId : String) (content : GoString) :
    HandlerResult :=
  if authorId = selfId then HandlerResult.ignored
  else if msgChannelId ≠ channelId then HandlerResult.ignored
  else if len content > 2 ∧ HasPrefix content "!z".toList then
    match (Split content "!z".toList)[1]? with
    | some piece => HandlerResult.wrote (TrimSpace piece ++ "\n".toList)
    | none => HandlerResult.panicked
  else HandlerResult.ignored

/-! ## Run loop -/

/-- The `switch` on the value of `machine.Run()`: `some status` is `os.Exit(status)`, `none`
leaves the `switch` for the next iteration. -/
def runSwitch (err : Option GoError) : Option Nat :=
  match err with
  | some GoError.EOF => some 0
  | some GoError.ErrQuit => some 0
  | some GoError.ErrRestart => some 1
  | _ => some 1

/-- The run loop over a machine state `M`: exit status and machine at exit. -/
def runLoop {M : Type} (Run : M → Option GoError × M) : Nat → M → Option (Nat × M)
  | 0, _ => none
  | fuel + 1, m =>
    match runSwitch (Run m).1 with
    | some status => some (status, (Run m).2)
    | none => runLoop Run fuel (Run m).2

/-! ## Lemmas on the session adapter -/

theorem take_snoc_step (r cs : List Char) (c : Char) (N : Nat) :
    (if r.length < N then r ++ [c] else r)
        ++ cs.take (N - (if r.length < N then r ++ [c] else r).length)
      = r ++ (c :: cs).take (N - r.length) := by
  by_cases h : r.length < N
  · obtain ⟨k, hk⟩ : ∃ k, N - r.length = k + 1 := ⟨N - r.length - 1, by omega⟩
    have h2 : N - (r.length + 1) = k := by omega
    simp [h, hk, h2]
  · have h0 : N - r.length = 0 := by omega
    simp [h, h0]

theorem inputLoop_line {σ : Type} (rd : σ → Option (RuneRead × σ)) (n : Int) (hn : 0 ≤ n)
    (rest : List Char) (sEnd : σ) :
    ∀ (cs r : List Char) (s : σ) (fuel : Nat), (∀ c ∈ cs, c ≠ '\n') →
      Unread rd (cs ++ '\n' :: rest) s sEnd → cs.length < fuel →
      ∃ s1, inputLoop rd n fuel r s
          = some (InputResult.returned (r ++ cs.take (n.toNat - r.length)) none, s1)
        ∧ Unread rd rest s1 sEnd := by
  intro cs
  induction cs with
  | nil =>
    intro r s fuel _ hu hf
    obtain ⟨f, rfl⟩ : ∃ f, fuel = f + 1 := ⟨fuel - 1, by simp at hf; omega⟩
    obtain ⟨sz, s2, hrd, hrest⟩ := hu
    exact ⟨s2, by simp [inputLoop, hrd], hrest⟩
  | cons c cs ih =>
    intro r s fuel hnl hu hf
    obtain ⟨f, rfl⟩ : ∃ f, fuel = f + 1 := ⟨fuel - 1, by simp at hf; omega⟩
    obtain ⟨sz, s2, hrd, hrest⟩ := hu
    have hc : c ≠ '\n' := hnl c (by simp)
    have hlt : ((r.length : Int) < n) ↔ r.length < n.toNat := by omega
    obtain ⟨s1, hrun, hun⟩ := ih (if r.length < n.toNat then r ++ [c] else r) s2 f
      (fun d hd => hnl d (by simp [hd])) hrest (by simp at hf; omega)
    refine ⟨s1, ?_, hun⟩
    rw [take_snoc_step] at hrun
    simp only [inputLoop, hrd, hlt]
    simpa [hc] using hrun

theorem inputLoop_error {σ : Type} (rd : σ → Option (RuneRead × σ)) (n : Int) (hn : 0 ≤ n)
    (res : RuneRead) (e : GoError) (s1 s2 : σ) (hrd : rd s1 = some (res, s2))
    (he : res.err = some e) :
    ∀ (cs r : List Char) (s : σ) (fuel : Nat), (∀ c ∈ cs, c ≠ '\n') →
      Unread rd cs s s1 → cs.length < fuel →
      inputLoop rd n fuel r s
        = some (InputResult.returned (r ++ cs.take (n.toNat - r.length)) (some e), s2) := by
  intro cs
  induction cs with
  | nil =>
    intro r s fuel _ hu hf
    obtain ⟨f, rfl⟩ : ∃ f, fuel = f + 1 := ⟨fuel - 1, by simp at hf; omega⟩
    have hs : s1 = s := hu
    subst hs
    simp [inputLoop, hrd, he]
  | cons c cs ih =>
    intro r s fuel hnl hu hf
    obtain ⟨f, rfl⟩ : ∃ f, fuel = f + 1 := ⟨fuel - 1, by simp at hf; omega⟩
    obtain ⟨sz, s3, hrd3, hrest⟩ := hu
    have hc : c ≠ '\n' := hnl c (by simp)
    have hlt : ((r.length : Int) < n) ↔ r.length < n.toNat := by omega
    have hrun := ih (if r.length < n.toNat then r ++ [c] else r) s3 f
      (fun d hd => hnl d (by simp [hd])) hrest (by simp at hf; omega)
    rw [take_snoc_step] at hrun
    simp only [inputLoop, hrd3, hlt]
    simpa [hc] using hrun

theorem inputLoop_nil_newline {σ : Type} (rd : σ → Option (RuneRead × σ)) (n : Int) :
    ∀ (fuel : Nat) (r r1 : List Char) (s s1 : σ),
      inputLoop rd n fuel r s = some (InputResult.returned r1 none, s1) →
      ∃ cs s0 sz, Unread rd cs s s0 ∧ rd s0 = some ({ r := '\n', size := sz, err := none }, s1) := by
  intro fuel
  induction fuel with
  | zero => intro r r1 s s1 h; simp [inputLoop] at h
  | succ f ih =>
    intro r r1 s s1 h
    rw [inputLoop] at h
    cases hrd : rd s with
    | none => simp [hrd] at h
    | some p =>
      obtain ⟨res, s2⟩ := p
      obtain ⟨c, sz, err⟩ := res
      simp only [hrd] at h
      by_cases he : err = none
      · subst he
        by_cases hc : c = '\n'
        · subst hc
          simp at h
          exact ⟨[], s, sz, rfl, by rw [hrd, h.2]⟩
        · simp [hc] at h
          obtain ⟨cs, s0, sz0, hu, hrd0⟩ := ih _ _ _ _ h
          exact ⟨c :: cs, s0, sz0, ⟨sz, s2, hrd, hu⟩, hrd0⟩
      · simp [he] at h

theorem len_eq_zero (s : GoString) : len s = 0 ↔ s = [] := by
  cases s with
  | nil => simp [len]
  | cons c cs =>
    have := Char.utf8Size_pos c
    simp [len]
    omega

theorem Unread_inputBuffer (msg : Chan) (rest : GoString) :
    ∀ cs : GoString, Unread inputBuffer.ReadRune cs { msg := msg, buf := cs ++ rest }
      { msg := msg, buf := rest } := by
  intro cs
  induction cs with
  | nil => rfl
  | cons c cs ih =>
    refine ⟨c.utf8Size, { msg := msg, buf := cs ++ rest }, ?_, ih⟩
    have h : len (c :: (cs ++ rest)) ≠ 0 := by simp [len_eq_zero]
    simp [inputBuffer.ReadRune, bytesBufferReadRune, h]

/-! ## Lemmas on the output buffer -/

theorem writtenSinceLastTick_write (es : List OutEvent) (s : GoString) :
    writtenSinceLastTick (es ++ [OutEvent.write s]) = writtenSinceLastTick es ++ s := by
  simp [writtenSinceLastTick, List.takeWhile]

theorem writtenSinceLastTick_tick (es : List OutEvent) :
    writtenSinceLastTick (es ++ [OutEvent.tick]) = [] := by
  simp [writtenSinceLastTick, List.takeWhile]

theorem run_buf (channelId : String) (es : List OutEvent) :
    (outputBuffer.run channelId es newOutputBuffer).buf = writtenSinceLastTick es := by
  induction es using List.reverseRecOn with
  | nil => rfl
  | append_singleton es e ih =>
    cases e with
    | write s =>
      rw [writtenSinceLastTick_write, ← ih]
      simp [outputBuffer.run, outputBuffer.apply, outputBuffer.WriteString]
    | tick =>
      rw [writtenSinceLastTick_tick]
      simp only [outputBuffer.run, List.foldl_append, List.foldl_cons, List.foldl_nil,
        outputBuffer.apply, outputBuffer.coalesceAndSend]
      split <;> rfl

/-! ## Lemmas on the event router -/

theorem Index_bound (sep : GoString) :
    ∀ (s : GoString) (i : Nat), Index s sep = some i → i + sep.length ≤ s.length := by
  intro s
  induction s with
  | nil =>
    intro i h
    by_cases hs : sep = []
    · simp [Index, hs] at h
      simp [hs, ← h]
    · simp [Index, hs] at h
  | cons c cs ih =>
    intro i h
    rw [Index] at h
    by_cases hp : sep.isPrefixOf (c :: cs) = true
    · simp only [hp, if_true, Option.some.injEq] at h
      have hle := (List.isPrefixOf_iff_prefix.1 hp).length_le
      omega
    · simp only [hp] at h
      cases hj : Index cs sep with
      | none => simp [hj] at h
      | some j =>
        simp [hj] at h
        have := ih j hj
        simp only [List.length_cons]
        omega

theorem countLoop_fuel (sep : GoString) (hsep : sep ≠ []) :
    ∀ (fuel : Nat) (s : GoString), s.length ≤ fuel →
      countLoop sep (fuel + 1) s = countLoop sep fuel s := by
  have hpos : 0 < sep.length := List.length_pos.2 hsep
  intro fuel
  induction fuel with
  | zero =>
    intro s hs
    have : s = [] := List.length_eq_zero.1 (by omega)
    subst this
    simp [countLoop, Index, hsep]
  | succ f ih =>
    intro s hs
    rw [countLoop, countLoop]
    cases hi : Index s sep with
    | none => rfl
    | some i =>
      have hb := Index_bound sep s i hi
      simp only
      rw [ih]
      simp only [List.length_drop]
      omega

theorem splitLoop_ne_nil (sep : GoString) : ∀ (k : Nat) (s : GoString), splitLoop sep k s ≠ [] := by
  intro k
  cases k with
  | zero => intro s; simp [splitLoop]
  | succ k =>
    intro s
    rw [splitLoop]
    split <;> simp

theorem Split_command_second (rest : GoString) :
    ∃ piece, (Split ('!' :: 'z' :: rest) "!z".toList)[1]? = some piece := by
  have hidx : Index ('!' :: 'z' :: rest) "!z".toList = some 0 := by
    simp [Index, List.isPrefixOf]
  have hsep : ("!z".toList = []) = False := by simp
  obtain ⟨k, hk⟩ : ∃ k, Count ('!' :: 'z' :: rest) "!z".toList = k + 1 := by
    simp only [Count, hsep, if_false, List.length_cons, countLoop, hidx]
    exact ⟨_, Nat.add_comm _ _⟩
  simp only [Split, hsep, if_false, hk]
  rw [splitLoop]
  simp only [hidx]
  cases h : splitLoop "!z".toList k
      (List.drop (0 + "!z".toList.length) ('!' :: 'z' :: rest)) with
  | nil => exact absurd h (splitLoop_ne_nil _ _ _)
  | cons a l => exact ⟨a, by simp⟩

theorem command_shape (content : GoString) :
    (len content > 2 ∧ HasPrefix content "!z".toList = true) ↔
      ∃ rest, rest ≠ [] ∧ content = '!' :: 'z' :: rest := by
  constructor
  · rintro ⟨hl, hp⟩
    match content, hl, hp with
    | [], hl, _ => simp [len] at hl
    | [a], _, hp => simp [HasPrefix, List.isPrefixOf] at hp
    | [a, b], hl, hp =>
      simp [HasPrefix, List.isPrefixOf] at hp
      obtain ⟨rfl, rfl⟩ := hp
      exact absurd hl (by decide)
    | a :: b :: c :: rest, _, hp =>
      simp [HasPrefix, List.isPrefixOf] at hp
      obtain ⟨rfl, rfl⟩ := hp
      exact ⟨c :: rest, by simp, rfl⟩
  · rintro ⟨rest, hne, rfl⟩
    refine ⟨?_, by simp [HasPrefix, List.isPrefixOf]⟩
    have h1 : len rest ≠ 0 := by simpa [len_eq_zero] using hne
    have h2 : len ('!' :: 'z' :: rest) = 2 + len rest := by
      simp only [len, List.map_cons, List.sum_cons]
      have : Char.utf8Size '!' = 1 := by decide
      have : Char.utf8Size 'z' = 1 := by decide
      omega
    omega

/-! ## Session adapter: `Input` and `Output` -/

/-- C1 as stated fails: for `n = 2^62`, which is not negative, on the stream `hi\n`, `Input`
panics in `make` (capacity out of range) and consumes nothing, for every fuel. -/
theorem discordUI_Input_line_cap_panics :
    (0 : Int) ≤ 4611686018427387904
      ∧ Unread inputBuffer.ReadRune ("hi".toList ++ '\n' :: [])
          { msg := Chan.make 1, buf := "hi".toList ++ '\n' :: [] } { msg := Chan.make 1, buf := [] }
      ∧ (∀ fuel : Nat, discordUI.Input (fun _ => true) inputBuffer.ReadRune
          { inp := { msg := Chan.make 1, buf := "hi".toList ++ '\n' :: [] },
            out := newOutputBuffer } 4611686018427387904 fuel
        = some (InputResult.panicked,
            { inp := { msg := Chan.make 1, buf := "hi".toList ++ '\n' :: [] },
              out := newOutputBuffer }))
      ∧ ¬ ∃ (fuel : Nat) (s1 : inputBuffer), discordUI.Input (fun _ => true) inputBuffer.ReadRune
          { inp := { msg := Chan.make 1, buf := "hi".toList ++ '\n' :: [] },
            out := newOutputBuffer } 4611686018427387904 fuel
        = some (InputResult.returned "hi".toList none, { inp := s1, out := newOutputBuffer }) := by
  have h : (4 : Int) * 4611686018427387904 > (maxAlloc : Int) := by
    simp only [maxAlloc]
    norm_num
  have hp : ∀ fuel : Nat, discordUI.Input (fun _ => true) inputBuffer.ReadRune
      { inp := { msg := Chan.make 1, buf := "hi".toList ++ '\n' :: [] },
        out := newOutputBuffer } 4611686018427387904 fuel
      = some (InputResult.panicked,
          { inp := { msg := Chan.make 1, buf := "hi".toList ++ '\n' :: [] },
            out := newOutputBuffer }) := by
    intro fuel
    simp only [discordUI.Input, h, or_true, if_true]
  refine ⟨by decide, ?_, hp, ?_⟩
  · simpa using Unread_inputBuffer (Chan.make 1) [] ("hi".toList ++ '\n' :: [])
  · rintro ⟨fuel, s1, hret⟩
    rw [hp fuel] at hret
    simp at hret

/-- C1, amended: for `n ≥ 0` whose slice `make([]rune, 0, n)` is allocated (`4 * n` bytes are
within `maxAlloc` and granted), when the unread content of the stream is `cs`, a newline and
`rest`, with no newline in `cs`, `Input(n)` returns the first `min n k` runes of `cs` with a
nil error, and what it leaves unread is exactly `rest`. -/
theorem discordUI_Input_line {σ : Type} (grant : Nat → Bool) (rd : σ → Option (RuneRead × σ))
    (t : discordUI σ) (n : Int) (cs rest : List Char) (sEnd : σ) (fuel : Nat) (hn : 0 ≤ n)
    (hcap : 4 * n ≤ (maxAlloc : Int)) (hg : grant (4 * n.toNat) = true)
    (hnl : ∀ c ∈ cs, c ≠ '\n') (hu : Unread rd (cs ++ '\n' :: rest) t.inp sEnd)
    (hf : cs.length < fuel) :
    ∃ s1, discordUI.Input grant rd t n fuel
        = some (InputResult.returned (cs.take n.toNat) none, { t with inp := s1 })
      ∧ Unread rd rest s1 sEnd := by
  obtain ⟨s1, hrun, hrest⟩ := inputLoop_line rd n hn rest sEnd cs [] t.inp fuel hnl hu hf
  refine ⟨s1, ?_, hrest⟩
  have hneg : ¬ (n < 0 ∨ 4 * n > (maxAlloc : Int)) := by omega
  simp only [discordUI.Input, hneg, if_false, hg, hrun]
  simp

/-- Instance of C1 on the input buffer: `Input(3)` on `hello\nworld` gives `hel`. -/
theorem discordUI_Input_line_witness :
    ∃ s1, discordUI.Input (fun m => decide (m ≤ 4096)) inputBuffer.ReadRune
          { inp := { msg := Chan.make 1, buf := "hello".toList ++ '\n' :: "world".toList ++ [] },
            out := newOutputBuffer } 3 6
        = some (InputResult.returned ("hello".toList.take (3 : Int).toNat) none,
            { inp := s1, out := newOutputBuffer })
      ∧ Unread inputBuffer.ReadRune "world".toList s1 { msg := Chan.make 1, buf := [] } :=
  discordUI_Input_line (fun m => decide (m ≤ 4096)) inputBuffer.ReadRune
    { inp := { msg := Chan.make 1, buf := "hello".toList ++ '\n' :: "world".toList ++ [] },
      out := newOutputBuffer } 3 "hello".toList "world".toList
    { msg := Chan.make 1, buf := [] } 6 (by decide) (by simp [maxAlloc]) (by decide) (by decide)
    (by simpa using Unread_inputBuffer (Chan.make 1) [] ("hello".toList ++ '\n' :: "world".toList))
    (by decide)

/-- C2 as stated fails: for `n = 2^62`, on a buffer holding `ab` whose third read fails with
`io.EOF`, `Input` panics in `make` instead of returning `io.EOF`, and reads nothing. -/
theorem discordUI_Input_error_cap_panics :
    (0 : Int) ≤ 4611686018427387904
      ∧ Unread inputBuffer.ReadRune "ab".toList
          { msg := { cap := 1, queue := [true] }, buf := "ab".toList ++ [] }
          { msg := { cap := 1, queue := [true] }, buf := [] }
      ∧ inputBuffer.ReadRune { msg := { cap := 1, queue := [true] }, buf := [] }
        = some ({ r := Char.ofNat 0, size := 0, err := some GoError.EOF },
            { msg := { cap := 1, queue := [] }, buf := [] })
      ∧ (∀ fuel : Nat, discordUI.Input (fun _ => true) inputBuffer.ReadRune
          { inp := { msg := { cap := 1, queue := [true] }, buf := "ab".toList ++ [] },
            out := newOutputBuffer } 4611686018427387904 fuel
        = some (InputResult.panicked,
            { inp := { msg := { cap := 1, queue := [true] }, buf := "ab".toList ++ [] },
              out := newOutputBuffer }))
      ∧ ¬ ∃ (fuel : Nat) (r : List Char) (t1 : discordUI inputBuffer),
          discordUI.Input (fun _ => true) inputBuffer.ReadRune
            { inp := { msg := { cap := 1, queue := [true] }, buf := "ab".toList ++ [] },
              out := newOutputBuffer } 4611686018427387904 fuel
          = some (InputResult.returned r (some GoError.EOF), t1) := by
  have h : (4 : Int) * 4611686018427387904 > (maxAlloc : Int) := by
    simp only [maxAlloc]
    norm_num
  have hp : ∀ fuel : Nat, discordUI.Input (fun _ => true) inputBuffer.ReadRune
      { inp := { msg := { cap := 1, queue := [true] }, buf := "ab".toList ++ [] },
        out := newOutputBuffer } 4611686018427387904 fuel
      = some (InputResult.panicked,
          { inp := { msg := { cap := 1, queue := [true] }, buf := "ab".toList ++ [] },
            out := newOutputBuffer }) := by
    intro fuel
    simp only [discordUI.Input, h, or_true, if_true]
  refine ⟨by decide, Unread_inputBuffer { cap := 1, queue := [true] } [] "ab".toList,
    by decide, hp, ?_⟩
  rintro ⟨fuel, r, t1, hret⟩
  rw [hp fuel] at hret
  simp at hret

/-- C2, amended: for `n ≥ 0` whose slice `make([]rune, 0, n)` is allocated, when `ReadRune`
fails with `e` after the runes `cs`, none of them a newline, `Input(n)` returns `e` with the
first `min n j` runes, in the state left by the failing read; and, whatever the stream, when
`Input` returns a nil error the last rune it read was a newline. -/
theorem discordUI_Input_error {σ : Type} (grant : Nat → Bool) (rd : σ → Option (RuneRead × σ))
    (t : discordUI σ) (n : Int) :
    (∀ (cs : List Char) (res : RuneRead) (e : GoError) (s1 s2 : σ) (fuel : Nat),
        0 ≤ n → 4 * n ≤ (maxAlloc : Int) → grant (4 * n.toNat) = true →
        (∀ c ∈ cs, c ≠ '\n') → Unread rd cs t.inp s1 → rd s1 = some (res, s2) →
        res.err = some e → cs.length < fuel →
        discordUI.Input grant rd t n fuel
          = some (InputResult.returned (cs.take n.toNat) (some e), { t with inp := s2 }))
      ∧ ∀ (fuel1 : Nat) (r : List Char) (t1 : discordUI σ),
          discordUI.Input grant rd t n fuel1 = some (InputResult.returned r none, t1) →
          ∃ cs0 s0 sz, Unread rd cs0 t.inp s0
            ∧ rd s0 = some ({ r := '\n', size := sz, err := none }, t1.inp) := by
  constructor
  · intro cs res e s1 s2 fuel hn hcap hg hnl hu hrd he hf
    have hneg : ¬ (n < 0 ∨ 4 * n > (maxAlloc : Int)) := by omega
    have hrun := inputLoop_error rd n hn res e s1 s2 hrd he cs [] t.inp fuel hnl hu hf
    simp only [discordUI.Input, hneg, if_false, hg, hrun]
    simp
  · intro fuel1 r t1 h
    unfold discordUI.Input at h
    split at h
    · simp at h
    · split at h
      · simp at h
      · cases hl : inputLoop rd n fuel1 [] t.inp with
        | none => simp [hl] at h
        | some p =>
          obtain ⟨q, s3⟩ := p
          simp only [hl, Option.map_some', Option.some.injEq, Prod.mk.injEq] at h
          obtain ⟨hq, ht⟩ := h
          subst hq
          subst ht
          exact inputLoop_nil_newline rd n fuel1 [] r t.inp s3 hl

/-- Instance of C2 on the input buffer: after `ab` the buffer is empty and a stale signal lets
`ReadRune` through to `io.EOF`, which `Input(5)` returns with `ab`; and on `hi\n`, where
`Input(5)` returns a nil error, the read before the final state delivered a newline. -/
theorem discordUI_Input_error_witness :
    discordUI.Input (fun m => decide (m ≤ 4096)) inputBuffer.ReadRune
        { inp := { msg := { cap := 1, queue := [true] }, buf := "ab".toList ++ [] },
          out := newOutputBuffer } 5 3
      = some (InputResult.returned ("ab".toList.take (5 : Int).toNat) (some GoError.EOF),
          { inp := { msg := { cap := 1, queue := [] }, buf := [] }, out := newOutputBuffer })
    ∧ ∃ cs0 s0 sz, Unread inputBuffer.ReadRune cs0
          { msg := Chan.make 1, buf := "hi".toList ++ '\n' :: [] } s0
        ∧ inputBuffer.ReadRune s0
          = some ({ r := '\n', size := sz, err := none }, { msg := Chan.make 1, buf := [] }) :=
  ⟨(discordUI_Input_error (fun m => decide (m ≤ 4096)) inputBuffer.ReadRune
      { inp := { msg := { cap := 1, queue := [true] }, buf := "ab".toList ++ [] },
        out := newOutputBuffer } 5).1 "ab".toList
      { r := Char.ofNat 0, size := 0, err := some GoError.EOF } GoError.EOF
      { msg := { cap := 1, queue := [true] }, buf := [] }
      { msg := { cap := 1, queue := [] }, buf := [] } 3 (by decide) (by simp [maxAlloc])
      (by decide) (by decide) (Unread_inputBuffer { cap := 1, queue := [true] } [] "ab".toList)
      (by decide) rfl (by decide),
    (discordUI_Input_error (fun m => decide (m ≤ 4096)) inputBuffer.ReadRune
      { inp := { msg := Chan.make 1, buf := "hi".toList ++ '\n' :: [] },
        out := newOutputBuffer } 5).2 3 "hi".toList
      { inp := { msg := Chan.make 1, buf := [] }, out := newOutputBuffer } (by rfl)⟩

/-- C3: `Output(window, text)` returns a nil error; for window 0 the accumulator of the output
buffer grows by `text`, for any other window it is unchanged; the input side is untouched. -/
theorem discordUI_Output_spec {σ : Type} (t : discordUI σ) (window : Int) (s : GoString) :
    (t.Output window s).1 = none
      ∧ (t.Output window s).2.out.buf = (if window = 0 then t.out.buf ++ s else t.out.buf)
      ∧ (t.Output window s).2.inp = t.inp := by
  by_cases h : window = 0 <;> simp [discordUI.Output, outputBuffer.WriteString, h]

/-! ## Input buffer -/

/-- C4: on a fresh input buffer the second of two successive `WriteString` calls never
returns, whatever the texts: the slot of `msg` still holds the signal of the first. -/
theorem inputBuffer_second_write_blocks (w1 w2 : GoString) :
    (newInputBuffer.WriteString w1).bind (fun b => b.WriteString w2) = none := by
  simp [newInputBuffer, inputBuffer.WriteString, Chan.make, Chan.send]

/-- C5: in every state whose slot already holds a signal, `WriteString` blocks on the send. -/
theorem inputBuffer_write_blocks_when_signalled (buf s : GoString) :
    inputBuffer.WriteString { msg := { cap := 1, queue := [true] }, buf := buf } s = none := by
  simp [inputBuffer.WriteString, Chan.send]

/-- C6: after `WriteString("a")` and one `ReadRune`, which returns `a`, the next `ReadRune`
takes the stale signal and returns `io.EOF` instead of blocking. -/
theorem inputBuffer_stale_signal_EOF :
    ((newInputBuffer.WriteString "a".toList).bind inputBuffer.ReadRune).map Prod.fst
        = some { r := 'a', size := 1, err := none }
      ∧ (((newInputBuffer.WriteString "a".toList).bind inputBuffer.ReadRune).bind
          fun p => inputBuffer.ReadRune p.2).map Prod.fst
        = some { r := Char.ofNat 0, size := 0, err := some GoError.EOF } := by
  decide

/-! ## Output buffer -/

/-- C7: after any sequence of writes and ticks from an empty output buffer, the next tick
makes at most one `ChannelMessageSend` call, to the configured channel, with the concatenation
of the texts written since the previous tick; it makes none when that text is empty; and it
leaves the accumulator empty. -/
theorem coalesceAndSend_batches (channelId : String) (es : List OutEvent) :
    ((outputBuffer.run channelId es newOutputBuffer).coalesceAndSend channelId).1
        = (if writtenSinceLastTick es = [] then []
            else [{ channel := channelId, s := writtenSinceLastTick es }])
      ∧ (((outputBuffer.run channelId es newOutputBuffer).coalesceAndSend channelId).1).length ≤ 1
      ∧ ((outputBuffer.run channelId es newOutputBuffer).coalesceAndSend channelId).2.buf = []
      ∧ (outputBuffer.run channelId (es ++ [OutEvent.tick]) newOutputBuffer).buf = [] := by
  have hb := run_buf channelId es
  have ht := run_buf channelId (es ++ [OutEvent.tick])
  rw [writtenSinceLastTick_tick] at ht
  refine ⟨?_, ?_, ?_, ht⟩
  · simp only [outputBuffer.coalesceAndSend, hb]
    split <;> rfl
  · simp only [outputBuffer.coalesceAndSend]
    split <;> simp
  · simp only [outputBuffer.coalesceAndSend]
    split <;> rfl

/-! ## Event router -/

/-- C8: on `!zsay !zhello` the handler writes `say\n`: it keeps the text between the first
two occurrences of `!z`, not all the text after the leading one. -/
theorem handler_truncates_at_second_marker :
    handler "bot" "chan" "user" "chan" "!zsay !zhello".toList
        = HandlerResult.wrote "say\n".toList
      ∧ handler "bot" "chan" "user" "chan" "!zlook".toList
        = HandlerResult.wrote "look\n".toList := by
  decide

/-- C9 as stated fails: `!z` followed by a blank is written (as an empty line) although no
non-whitespace character follows the marker. -/
theorem handler_writes_blank_command :
    ¬ ((∃ x, handler "bot" "chan" "user" "chan" "!z ".toList = HandlerResult.wrote x) ↔
        ("user" ≠ "bot" ∧ "chan" = "chan"
          ∧ ∃ rest, "!z ".toList = '!' :: 'z' :: rest ∧ ∃ c ∈ rest, IsSpace c = false)) := by
  intro h
  obtain ⟨_, _, rest, hrest, c, hc, hsp⟩ := h.1 ⟨"\n".toList, by decide⟩
  have hr : rest = [' '] := by
    have h2 : "!z ".toList = ['!', 'z', ' '] := by decide
    rw [h2] at hrest
    simp at hrest
    exact hrest.symm
  subst hr
  simp at hc
  subst hc
  exact absurd hsp (by decide)

/-- C9, amended: the handler writes exactly when the author is not the bot, the channel is the
configured one and the text is `!z` followed by at least one more character, whitespace or not;
in every other case it does nothing. -/
theorem handler_writes_iff (selfId channelId authorId msgChannelId : String)
    (content : GoString) :
    ((∃ x, handler selfId channelId authorId msgChannelId content = HandlerResult.wrote x) ↔
        (authorId ≠ selfId ∧ msgChannelId = channelId
          ∧ ∃ rest, rest ≠ [] ∧ content = '!' :: 'z' :: rest))
      ∧ (¬ (authorId ≠ selfId ∧ msgChannelId = channelId
            ∧ ∃ rest, rest ≠ [] ∧ content = '!' :: 'z' :: rest) →
          handler selfId channelId authorId msgChannelId content = HandlerResult.ignored) := by
  have hshape := command_shape content
  by_cases ha : authorId = selfId
  · simp [handler, ha]
  by_cases hc : msgChannelId = channelId
  · by_cases hcmd : len content > 2 ∧ HasPrefix content "!z".toList = true
    · obtain ⟨rest, hne, rfl⟩ := hshape.1 hcmd
      obtain ⟨piece, hp⟩ := Split_command_second rest
      have hw : handler selfId channelId authorId msgChannelId ('!' :: 'z' :: rest)
          = HandlerResult.wrote (TrimSpace piece ++ "\n".toList) := by
        simp only [handler, ha, hc, if_false, ne_eq, not_true_eq_false, hcmd, if_true, hp]
        simp
      constructor
      · exact ⟨fun _ => ⟨ha, hc, rest, hne, rfl⟩, fun _ => ⟨_, hw⟩⟩
      · intro hn
        exact absurd ⟨ha, hc, rest, hne, rfl⟩ hn
    · have hno : ¬ ∃ rest, rest ≠ [] ∧ content = '!' :: 'z' :: rest := fun h => hcmd (hshape.2 h)
      have hi : handler selfId channelId authorId msgChannelId content
          = HandlerResult.ignored := by
        simp only [handler, ha, hc, if_false, ne_eq, not_true_eq_false, hcmd]
      simp [hi, hno]
  · simp [handler, ha, hc]

/-! ## Run loop -/

/-- C10: every value of `machine.Run()` ends the process, with status 0 exactly for `io.EOF`
and `ErrQuit`; a nil value lands in the `default` case and exits with status 1, so the loop
never calls `Run` a second time. -/
theorem runLoop_nil_exits :
    (∀ err : Option GoError, ∃ status, runSwitch err = some status
        ∧ (status = 0 ↔ (err = some GoError.EOF ∨ err = some GoError.ErrQuit)))
      ∧ runSwitch none = some 1
      ∧ ∀ fuel : Nat,
          runLoop (fun m : Nat => ((none : Option GoError), m + 1)) (fuel + 1) 0 = some (1, 1) := by
  refine ⟨?_, rfl, fun fuel => rfl⟩
  intro err
  match err with
  | none => exact ⟨1, rfl, by simp⟩
  | some GoError.EOF => exact ⟨0, rfl, by simp⟩
  | some GoError.ErrQuit => exact ⟨0, rfl, by simp⟩
  | some GoError.ErrRestart => exact ⟨1, rfl, by simp⟩
  | some (GoError.other msg) => exact ⟨1, rfl, by simp⟩
